import Mathlib

/-!
Shallow embedding of `cli_virtual_assistant.py`: an in-memory contact
directory (validated fields, records, an address book with search and
paginated iteration).  Python `datetime` values are modelled as explicit
calendar dates with a seconds-of-day component; Python exceptions are
modelled with `Except PyErr`; Python object identity (used by
`list.remove`) is modelled with an explicit `id` field on phone objects.
-/

set_option maxHeartbeats 1000000

namespace CliAssistant

/-- Python exceptions that the modelled code can raise. -/
inductive PyErr where
  | valueError
  | attributeError
  | typeError
  | keyError
  | stopIteration
deriving DecidableEq, Repr, Inhabited

/-! ## Validated fields (`Field` and its subclasses) -/

/-- State of a `Field`: the private `__value`, `None` until a valid value is
assigned (`self.__value = None` in `Field.__init__`). -/
structure FieldSt (T : Type) where
  value : Option T
deriving DecidableEq, Repr

instance (T : Type) : Inhabited (FieldSt T) := ⟨⟨none⟩⟩

/-- The `value` property setter: `if self.valid_value(val): self.__value = val`.
An invalid assignment is silently dropped and the previous state kept. -/
def field_set {T : Type} (valid : T → Bool) (f : FieldSt T) (v : T) : FieldSt T :=
  if valid v then ⟨some v⟩ else f

/-- `Field.__init__`: start from `__value = None`, then run the setter once. -/
def field_init {T : Type} (valid : T → Bool) (v : T) : FieldSt T :=
  field_set valid ⟨none⟩ v

/-- `Field.valid_value` (base class) on a string value: Python truthiness of a
string is non-emptiness.  `Name` inherits this rule unchanged. -/
def name_valid (s : String) : Bool :=
  s != ""

/-- The digit count used by `Phone.valid_value`:
`len(''.join(filter(str.isdigit, value)))`.  Digits are modelled as the ASCII
digits `0`-`9`. -/
def digitCount (s : String) : Nat :=
  (s.toList.filter Char.isDigit).length

/-- `Phone.valid_value`: `8 < len(digits) < 13 and len(value) < 20`.
(On a non-string argument the Python code raises `TypeError` from
`filter(str.isdigit, value)`; the model's domain is strings.) -/
def phone_valid (s : String) : Bool :=
  decide (8 < digitCount s) && decide (digitCount s < 13) && decide (s.length < 20)

/-! ## Calendar arithmetic (`datetime`) -/

/-- A Python `datetime`: a calendar date plus a seconds-of-day component
(`sod`, in `[0, 86400)` for meaningful values; the dates the program builds
with `datetime(y, m, d)` have `sod = 0`). -/
structure PyDateTime where
  year : Nat
  month : Nat
  day : Nat
  sod : Nat
deriving DecidableEq, Repr, Inhabited

/-- Gregorian leap-year rule, as `calendar.isleap` / `datetime` use it. -/
def isLeap (y : Nat) : Bool :=
  (y % 4 == 0 && y % 100 != 0) || y % 400 == 0

/-- Length of month `m` in year `y` (months numbered 1-12). -/
def daysInMonth (y m : Nat) : Nat :=
  if m == 2 then (if isLeap y then 29 else 28)
  else if m == 4 || m == 6 || m == 9 || m == 11 then 30
  else 31

/-- Validity of the triple accepted by `datetime(year, month, day)`. -/
def validDate (y m d : Nat) : Bool :=
  decide (1 ≤ y) && decide (y ≤ 9999) && decide (1 ≤ m) && decide (m ≤ 12) &&
    decide (1 ≤ d) && decide (d ≤ daysInMonth y m)

/-- Number of leap years in `1..y`. -/
def leapsBefore (y : Nat) : Nat :=
  y / 4 - y / 100 + y / 400

/-- Days in the years strictly before year `y` (counting from year 1). -/
def daysBeforeYear (y : Nat) : Nat :=
  365 * (y - 1) + leapsBefore (y - 1)

/-- Days in the months of year `y` strictly before month `m`. -/
def daysBeforeMonth (y m : Nat) : Nat :=
  (List.range (m - 1)).foldl (fun acc i => acc + daysInMonth y (i + 1)) 0

/-- Proleptic-Gregorian day number of a date (the ordinal that Python's
`datetime.toordinal` computes, shifted by one). -/
def rataDie (y m d : Nat) : Nat :=
  daysBeforeYear y + daysBeforeMonth y m + (d - 1)

/-- A `datetime` as a total count of seconds; `datetime` comparison and
subtraction are both defined through this. -/
def toSecs (dt : PyDateTime) : Int :=
  (rataDie dt.year dt.month dt.day : Int) * 86400 + dt.sod

/-- `a < b` on `datetime` values. -/
def dtLt (a b : PyDateTime) : Bool :=
  decide (toSecs a < toSecs b)

/-- `(a - b).days` on `datetime` values: Python `timedelta` normalises with
floor division of the total seconds. -/
def tdDays (a b : PyDateTime) : Int :=
  Int.fdiv (toSecs a - toSecs b) 86400

/-- The constructor call `datetime(y, m, d)`: raises `ValueError` on an
invalid date, else midnight of that date. -/
def mk_datetime (y m d : Nat) : Except PyErr PyDateTime :=
  if validDate y m d then .ok ⟨y, m, d, 0⟩ else .error .valueError

/-- `Birthday.valid_value`: `isinstance(birthday, datetime) and
0 < datetime.now().year - birthday.year <= 100` (the `isinstance` test is
carried by the model's type). -/
def birthday_valid (nowYear : Nat) (b : PyDateTime) : Bool :=
  decide (0 < (nowYear : Int) - b.year) && decide ((nowYear : Int) - b.year ≤ 100)

/-! ## Phone objects and records -/

/-- A `Phone` object: `id` models Python object identity (`list.remove`
compares phones with default object equality, i.e. identity), `value` the
field state after validation. -/
structure Phone where
  id : Nat
  value : Option String
deriving DecidableEq, Repr, Inhabited

/-- `Phone(s)`: a fresh object whose field state is produced by the validated
constructor. -/
def mk_phone (id : Nat) (s : String) : Phone :=
  ⟨id, (field_init phone_valid s).value⟩

/-- A `Record`: a contact with a name field, an ordered list of phone
objects, and an optional birthday field object. -/
structure Record where
  name : FieldSt String
  phones : List Phone
  birthday : Option (FieldSt PyDateTime)
deriving DecidableEq, Repr

instance : Inhabited Record := ⟨⟨⟨none⟩, [], none⟩⟩

/-- `Record.__init__`: `if phone: self.phones.append(phone)` — `phone` is
either the default `None` (falsy) or a `Phone` object, and a `Phone` object
is always truthy, whatever its field value. -/
def record_init (name : FieldSt String) (phone : Option Phone)
    (birthday : Option (FieldSt PyDateTime)) : Record :=
  { name := name
    phones := match phone with
      | some p => [p]
      | none => []
    birthday := birthday }

/-- `Record.days_to_birthday`, with `datetime.now()` passed in as `now`.
`if self.birthday:` is falsy only for the `None` default (a `Birthday` object
is always truthy); `self.birthday.value.month` raises `AttributeError` when
the field holds no value; each `datetime(...)` call can raise `ValueError`. -/
def days_to_birthday (now : PyDateTime) (r : Record) : Except PyErr (Option Int) :=
  match r.birthday with
  | none => .ok none
  | some b =>
    match b.value with
    | none => .error .attributeError
    | some bd =>
      match mk_datetime now.year bd.month bd.day with
      | .error e => .error e
      | .ok cand =>
        if dtLt cand now then
          match mk_datetime (now.year + 1) bd.month bd.day with
          | .error e => .error e
          | .ok cand2 => .ok (some (tdDays cand2 now))
        else
          .ok (some (tdDays cand now))

/-- The argument passed to `Record.add_phone`: either a `Phone` object or a
value with no `value` attribute (such as `None`). -/
inductive AddPhoneArg where
  | phoneArg (p : Phone)
  | nonField
deriving DecidableEq, Repr

/-- The `try:` body of `Record.add_phone`: reading `.value` on a non-field
raises `AttributeError`; `if phone.value:` appends only when the held value
is truthy (a non-empty string). -/
def add_phone_try (r : Record) (a : AddPhoneArg) : Except PyErr (List Phone) :=
  match a with
  | .nonField => .error .attributeError
  | .phoneArg p =>
    match p.value with
    | some v => .ok (if v != "" then r.phones ++ [p] else r.phones)
    | none => .ok r.phones

/-- `Record.add_phone`: the `except AttributeError: pass` clause swallows
exactly that exception; any other exception would propagate. -/
def add_phone (r : Record) (a : AddPhoneArg) : Except PyErr Record :=
  match add_phone_try r a with
  | .ok ps => .ok { r with phones := ps }
  | .error .attributeError => .ok r
  | .error e => .error e

/-- `list.remove(x)` for a list of phone objects: removes the first element
identical to `x` (default object equality is identity, modelled by `id`).
The caller below only ever removes an element of the list, so the
not-found `ValueError` branch of `list.remove` is unreachable. -/
def eraseFirstId : List Phone → Nat → List Phone
  | [], _ => []
  | x :: xs, pid => if x.id == pid then xs else x :: eraseFirstId xs pid

theorem eraseFirstId_length_of_mem {l : List Phone} {pid : Nat}
    (h : ∃ x ∈ l, x.id = pid) : (eraseFirstId l pid).length = l.length - 1 := by
  induction l with
  | nil => simp at h
  | cons x xs ih =>
    rcases h with ⟨y, hy, hid⟩
    by_cases hx : x.id == pid
    · simp [eraseFirstId, hx]
    · rcases List.mem_cons.mp hy with rfl | hy'
      · exact absurd (by simp [hid]) hx
      · have := ih ⟨y, hy', hid⟩
        have hne : (x.id == pid) = false := by simpa using hx
        have hlen : 1 ≤ xs.length := List.length_pos.mpr (by rintro rfl; simp at hy')
        simp [eraseFirstId, hne, this]
        omega

/-- The loop of `Record.remove_phone`: `for existing_phone in self.phones:`
is an index-based iterator over the list being mutated; when the current
element's value equals the query value, `self.phones.remove(existing_phone)`
deletes the first element identical to it, and the iterator then advances to
the next index of the shrunken list. -/
def remove_phone_aux (v : Option String) (l : List Phone) (i : Nat) : List Phone :=
  if h : i < l.length then
    if v == (l.get ⟨i, h⟩).value then
      remove_phone_aux v (eraseFirstId l (l.get ⟨i, h⟩).id) (i + 1)
    else
      remove_phone_aux v l (i + 1)
  else l
termination_by l.length - i
decreasing_by
  · have := @eraseFirstId_length_of_mem l ((l.get ⟨i, h⟩).id)
      ⟨_, l.get_mem i h, rfl⟩
    omega
  · omega

/-- `Record.remove_phone(phone)`. -/
def remove_phone (p : Phone) (r : Record) : Record :=
  { r with phones := remove_phone_aux p.value r.phones 0 }

/-- The loop of `Record.edit_phone`: `for idx, phone in enumerate(...)`
with `self.phones[idx] = new_phone` on every value match; the list length
never changes, so the iterator visits every index once. -/
def edit_phone_aux (ov : Option String) (np : Phone) (l : List Phone) (i : Nat) :
    List Phone :=
  if h : i < l.length then
    edit_phone_aux ov np
      (if ov == (l.get ⟨i, h⟩).value then l.set i np else l) (i + 1)
  else l
termination_by l.length - i
decreasing_by
  · split <;> simp <;> omega

/-- `Record.edit_phone(old_phone, new_phone)`. -/
def edit_phone (op np : Phone) (r : Record) : Record :=
  { r with phones := edit_phone_aux op.value np r.phones 0 }

/-! ## The address book (`AddressBook`, a `UserDict`) -/

/-- `AddressBook.data`: a Python `dict` from name values to records,
modelled as an association list in insertion order with unique keys.  The
key is `record.name.value`, which is `None` for a record whose name field
holds no value, hence `Option String`. -/
structure AddressBook where
  data : List (Option String × Record)
deriving DecidableEq, Repr, Inhabited

/-- Python `dict` assignment `d[k] = v`: an existing key keeps its position
and gets the new value; a new key is appended at the end. -/
def dict_insert : List (Option String × Record) → Option String → Record →
    List (Option String × Record)
  | [], k, v => [(k, v)]
  | (k', v') :: rest, k, v =>
    if k' == k then (k, v) :: rest else (k', v') :: dict_insert rest k v

/-- Python `dict` lookup `d[k]` as an option (first — and, with unique keys,
only — entry whose key equals `k`). -/
def dict_lookup : List (Option String × Record) → Option String → Option Record
  | [], _ => none
  | (k', v') :: rest, k => if k' == k then some v' else dict_lookup rest k

/-- `AddressBook.add_record`: `self.data[record.name.value] = record`. -/
def add_record (ab : AddressBook) (r : Record) : AddressBook :=
  ⟨dict_insert ab.data r.name.value r⟩

/-- The dynamic type of the argument of `AddressBook.search`: the
`isinstance` tests distinguish `Name` objects, `Phone` objects, and
everything else.  Each carries the object's field value. -/
inductive SearchQuery where
  | nameQ (v : Option String)
  | phoneQ (v : Option String)
  | otherQ
deriving DecidableEq, Repr

/-- The dynamic type of `AddressBook.search`'s result: a list of phone
values, a name key, or `None`. -/
inductive SearchResult where
  | phones (l : List (Option String))
  | foundName (n : Option String)
  | nothing
deriving DecidableEq, Repr

/-- `AddressBook.search`: starts from `results = None`; a `Name` query
overwrites `results` with the phone-value list at every key match; a
`Phone` query overwrites `results` with the record's key whenever any of
its phones holds an equal value; any other query leaves `results = None`. -/
def search (ab : AddressBook) (q : SearchQuery) : SearchResult :=
  match q with
  | .nameQ v =>
    ab.data.foldl
      (fun res kr =>
        if v == kr.1 then .phones (kr.2.phones.map Phone.value) else res)
      .nothing
  | .phoneQ v =>
    ab.data.foldl
      (fun res kr =>
        if kr.2.phones.any (fun p => v == p.value) then .foundName kr.1 else res)
      .nothing
  | .otherQ => .nothing

/-! ## Paginated iteration (`__iter__` / `__next__`) -/

/-- The cursor created by `AddressBook.__iter__`:
`self.keys_iter = iter(self.data)`, i.e. the not-yet-consumed keys in
insertion order. -/
structure BookIter where
  keys : List (Option String)
deriving DecidableEq, Repr

/-- `AddressBook.__iter__`. -/
def book_iter (ab : AddressBook) : BookIter :=
  ⟨ab.data.map Prod.fst⟩

/-- The `try: for _ in range(n): ...` loop of `AddressBook.__next__`:
pulls up to `n` keys from the cursor, pairing each with `self.data[key]`
(raising `KeyError` if a key is missing from the dict); when the cursor is
exhausted the `StopIteration` is re-raised only if no item was collected,
otherwise the partial batch is returned with the cursor spent.  Returns the
collected `(key, record)` items and the remaining keys. -/
def next_items (ab : AddressBook) :
    Nat → List (Option String) → List (Option String × Record) →
    Except PyErr (List (Option String × Record) × List (Option String))
  | 0, keys, acc => .ok (acc, keys)
  | _ + 1, [], acc => if acc.isEmpty then .error .stopIteration else .ok (acc, [])
  | n + 1, k :: rest, acc =>
    match dict_lookup ab.data k with
    | some r => next_items ab n rest (acc ++ [(k, r)])
    | none => .error .keyError

/-! ## Page rendering (the string built by `__next__`) -/

/-- `' ' * k`. -/
def spaces (k : Nat) : String :=
  String.mk (List.replicate k ' ')

/-- Python format spec `{:<w}` / `str.ljust`. -/
def pyLJust (w : Nat) (s : String) : String :=
  if s.length ≥ w then s else s ++ spaces (w - s.length)

/-- Python format spec `{:>w}` / `str.rjust`. -/
def pyRJust (w : Nat) (s : String) : String :=
  if s.length ≥ w then s else spaces (w - s.length) ++ s

/-- Python format spec `{:^w}` / `str.center` (extra space on the right). -/
def pyCenter (w : Nat) (s : String) : String :=
  if s.length ≥ w then s
  else spaces ((w - s.length) / 2) ++ s ++ spaces (w - s.length - (w - s.length) / 2)

/-- Zero-padded two-digit number (`%d`, `%m`). -/
def pad2 (n : Nat) : String :=
  if n < 10 then "0" ++ toString n else toString n

/-- Zero-padded four-digit year (`%Y`). -/
def pad4 (n : Nat) : String :=
  if n < 10 then "000" ++ toString n
  else if n < 100 then "00" ++ toString n
  else if n < 1000 then "0" ++ toString n
  else toString n

/-- `strftime("%d.%m.%Yp")`. -/
def strftimeDMYp (d : PyDateTime) : String :=
  pad2 d.day ++ "." ++ pad2 d.month ++ "." ++ pad4 d.year ++ "p"

/-- The 70-dash separator line (with its newline). -/
def dashLine : String :=
  String.mk (List.replicate 70 '-') ++ "\n"

/-- Formatting a value that must be a string: Python's `format` raises
`TypeError` when handed `None` with a string format spec. -/
def fmtStr (v : Option String) : Except PyErr String :=
  match v with
  | some s => .ok s
  | none => .error .typeError

/-- The birthday column text:
`user.birthday.value.strftime("%d.%m.%Yp") if user.birthday else ''`
(reading `.strftime` on a field value of `None` raises `AttributeError`). -/
def birthday_text (r : Record) : Except PyErr String :=
  match r.birthday with
  | none => .ok ""
  | some b =>
    match b.value with
    | none => .error .attributeError
    | some d => .ok (strftimeDMYp d)

/-- The phone rows of one record's block: index 0 carries the name and
birthday columns, later rows blank them. -/
def phone_rows (nameStr birthdayStr : String) : List Phone → Nat → Except PyErr String
  | [], _ => .ok ""
  | p :: ps, i => do
    let v ← fmtStr p.value
    let row :=
      if i == 0 then
        "| " ++ pyLJust 32 nameStr ++ "|" ++ pyRJust 19 v ++ " |" ++
          pyCenter 13 birthdayStr ++ "|\n"
      else
        "|" ++ pyLJust 33 " " ++ "|" ++ pyRJust 19 v ++ " |" ++
          pyCenter 13 " " ++ "|\n"
    let rest ← phone_rows nameStr birthdayStr ps (i + 1)
    .ok (row ++ rest)

/-- One record's block: its phone rows (or the single empty-phone row), then
a separator line. -/
def record_block (k : Option String) (r : Record) : Except PyErr String := do
  let nameStr ← fmtStr k
  let birthdayStr ← birthday_text r
  let rows ← phone_rows nameStr birthdayStr r.phones 0
  let rows :=
    if r.phones.isEmpty then
      "| " ++ pyLJust 32 nameStr ++ "|" ++ pyRJust 19 " " ++ " |" ++
        pyCenter 13 birthdayStr ++ "|\n"
    else rows
  .ok (rows ++ dashLine)

/-- The full page string built by `__next__`: separator, header, separator,
then each collected record's block. -/
def render_page (items : List (Option String × Record)) : Except PyErr String := do
  let blocks ← items.mapM (fun kr => record_block kr.1 kr.2)
  .ok (dashLine ++
    "|" ++ pyCenter 33 "User" ++ "|" ++ pyCenter 20 "Phones" ++ "|" ++
      pyCenter 13 "Birthday" ++ "|\n" ++ dashLine ++
    String.join blocks)

/-- `AddressBook.__next__(n)`: collect up to `n` items (signalling
`StopIteration` when nothing is left), then render them as one formatted
page, returning the page text and the advanced cursor. -/
def book_next (ab : AddressBook) (it : BookIter) (n : Nat := 10) :
    Except PyErr (String × BookIter) := do
  let (items, rest) ← next_items ab n it.keys []
  let s ← render_page items
  .ok (s, ⟨rest⟩)

/-- A 25-record directory built with `add_record`, used to exercise the
pagination contract on concrete data. -/
def ab25 : AddressBook :=
  (List.range 25).foldl
    (fun ab i => add_record ab ⟨⟨some ("user" ++ toString i)⟩, [], none⟩) ⟨[]⟩

/-- A two-record directory whose records share a phone value, used to
exercise the search contract on concrete data. -/
def ab2 : AddressBook :=
  ⟨[(some "Alice", ⟨⟨some "Alice"⟩, [⟨1, some "123456789"⟩], none⟩),
    (some "Bob", ⟨⟨some "Bob"⟩, [⟨2, some "123456789"⟩], none⟩)]⟩

/-! ## Field validation invariant -/

theorem field_set_preserves {T : Type} (valid : T → Bool) (f : FieldSt T) (v : T)
    (hf : ∀ x, f.value = some x → valid x = true) :
    ∀ x, (field_set valid f v).value = some x → valid x = true := by
  intro x hx
  by_cases hv : valid v
  · simp [field_set, hv] at hx
    exact hx ▸ hv
  · simp [field_set, hv] at hx
    exact hf x hx

theorem field_foldl_preserves {T : Type} (valid : T → Bool) :
    ∀ (ops : List T) (f : FieldSt T),
      (∀ x, f.value = some x → valid x = true) →
      ∀ x, (ops.foldl (field_set valid) f).value = some x → valid x = true := by
  intro ops
  induction ops with
  | nil => intro f hf; simpa using hf
  | cons a as ih =>
    intro f hf x hx
    exact ih _ (field_set_preserves valid f a hf) x hx

/-- C5: for every field kind (`valid` ranges over the program's validation
rules, `name_valid`, `phone_valid`, `birthday_valid nowYear`, or the base
truthiness rule) and every sequence of assignment attempts after
construction, the field never observably holds a value failing its own
rule, and a valid assignment always stores its value. -/
theorem c5_field_invariant (T : Type) (valid : T → Bool) (v0 w : T) (ops : List T) (v : T)
    (hv : ((ops.foldl (field_set valid) (field_init valid v0))).value = some v) :
    valid v = true ∧
      (valid w = true →
        (field_set valid (ops.foldl (field_set valid) (field_init valid v0)) w).value =
          some w) := by
  constructor
  · refine field_foldl_preserves valid ops (field_init valid v0) ?_ v hv
    intro x hx
    exact field_set_preserves valid ⟨none⟩ v0 (fun y hy => Option.noConfusion hy) x hx
  · intro hw
    simp [field_set, hw]

/-- Witness for C5 at the phone rule: construct from an invalid string, then
assign a valid phone string; the stored value is valid. -/
theorem c5_witness :
    phone_valid "1234567890" = true ∧
      (phone_valid "0987654321" = true →
        (field_set phone_valid
          ((["1234567890"] : List String).foldl (field_set phone_valid)
            (field_init phone_valid "abc")) "0987654321").value = some "0987654321") :=
  c5_field_invariant String phone_valid "abc" "0987654321" ["1234567890"] "1234567890"
    (by decide)

/-- C9: `Phone(s)` holds exactly the strings with 9-12 digits (after
stripping non-digits) and total length under 20; outside that range the
field holds no value. -/
theorem c9_phone_validation (s : String) :
    (field_init phone_valid s).value =
      if 9 ≤ digitCount s ∧ digitCount s ≤ 12 ∧ s.length < 20 then some s else none := by
  have h : phone_valid s = true ↔ (9 ≤ digitCount s ∧ digitCount s ≤ 12 ∧ s.length < 20) := by
    simp only [phone_valid, Bool.and_eq_true, decide_eq_true_eq]
    omega
  simp only [field_init, field_set]
  split_ifs with h1 h2 h2
  · rfl
  · exact absurd (h.mp h1) h2
  · exact absurd (h.mpr h2) h1
  · rfl

/-- C2 is false on the code: `Record.__init__` guards the append with the
truthiness of the `Phone` object itself, not of its value, so a supplied
`Phone` holding no valid value is appended and the phone list is not
empty. -/
theorem c2_counterexample :
    (mk_phone 0 "not a number").value = none ∧
    (record_init ⟨some "Bill"⟩ (some (mk_phone 0 "not a number")) none).phones =
      [mk_phone 0 "not a number"] :=
  ⟨rfl, rfl⟩

/-- C2 amended: a record constructed with a phone argument supplied appends
that phone object unconditionally (whatever its held value); only the
absent default leaves the phone list empty. -/
theorem c2_amended_init_appends_any_phone (n : FieldSt String) (p : Phone)
    (b : Option (FieldSt PyDateTime)) :
    (record_init n (some p) b).phones = [p] ∧ (record_init n none b).phones = [] :=
  ⟨rfl, rfl⟩

/-- C10: `add_phone` with a non-field argument (no `value` attribute) is a
silent no-op, as is a phone holding no valid value, and no argument ever
makes it raise. -/
theorem c10_add_phone_total (r : Record) :
    add_phone r .nonField = .ok r ∧
    (∀ p : Phone, p.value = none → add_phone r (.phoneArg p) = .ok r) ∧
    (∀ a : AddPhoneArg, ∃ r' : Record, add_phone r a = .ok r') := by
  refine ⟨rfl, ?_, ?_⟩
  · intro p hp
    simp [add_phone, add_phone_try, hp]
  · intro a
    cases a with
    | nonField => exact ⟨r, rfl⟩
    | phoneArg p =>
      cases hp : p.value with
      | none => exact ⟨r, by simp [add_phone, add_phone_try, hp]⟩
      | some v =>
        exact ⟨{ r with phones := if v != "" then r.phones ++ [p] else r.phones },
          by simp [add_phone, add_phone_try, hp]⟩

/-- Witness for C10 on a concrete record: `None` argument and a
valueless phone are both accepted and change nothing. -/
theorem c10_witness :
    add_phone ⟨⟨some "Bill"⟩, [⟨0, some "1234567890"⟩], none⟩ .nonField =
        .ok ⟨⟨some "Bill"⟩, [⟨0, some "1234567890"⟩], none⟩ ∧
      add_phone ⟨⟨some "Bill"⟩, [⟨0, some "1234567890"⟩], none⟩ (.phoneArg ⟨1, none⟩) =
        .ok ⟨⟨some "Bill"⟩, [⟨0, some "1234567890"⟩], none⟩ :=
  ⟨(c10_add_phone_total ⟨⟨some "Bill"⟩, [⟨0, some "1234567890"⟩], none⟩).1,
    (c10_add_phone_total ⟨⟨some "Bill"⟩, [⟨0, some "1234567890"⟩], none⟩).2.1 ⟨1, none⟩ rfl⟩

/-- C8 fails on the code: the program itself accepts February 29 as a valid
birthday, yet `days_to_birthday` evaluated in a non-leap year raises
`ValueError` from `datetime(current_year, 2, 29)` instead of completing. -/
theorem c8_feb29_value_error :
    birthday_valid 2026 ⟨1992, 2, 29, 0⟩ = true ∧
    days_to_birthday ⟨2026, 10, 12, 43200⟩
      ⟨⟨some "Frank"⟩, [], some ⟨some ⟨1992, 2, 29, 0⟩⟩⟩ = .error .valueError :=
  ⟨by decide, rfl⟩

/-! ## Days to birthday -/

/-- C1 is false on the code: with the birthday's month/day equal to today's,
`datetime.now()` at 01:00 is strictly later than today's occurrence at
midnight, so the rollover to next year happens on the day itself and the
result is 364, not 0. -/
theorem c1_counterexample :
    days_to_birthday ⟨2026, 8, 24, 3600⟩
        ⟨⟨some "Bill"⟩, [], some ⟨some ⟨1991, 8, 24, 0⟩⟩⟩ = .ok (some 364) ∧
      (364 : Int) ≠ 0 :=
  ⟨rfl, by decide⟩

/-- C1 amended: on a birthday whose month and day equal today's,
`days_to_birthday` returns 0 only when `now` is exactly midnight; at any
later time of the day, today's occurrence (at midnight) is strictly earlier
than `now`, the rollover happens, and the result is the floor day count to
next year's occurrence (the calendar gap minus one). -/
theorem c1_amended_birthday_today (now : PyDateTime) (r : Record)
    (b : FieldSt PyDateTime) (bd : PyDateTime)
    (hb : r.birthday = some b) (hbv : b.value = some bd)
    (hm : bd.month = now.month) (hd : bd.day = now.day)
    (hvd : validDate now.year now.month now.day = true) :
    (now.sod = 0 → days_to_birthday now r = .ok (some 0)) ∧
    (0 < now.sod → now.sod < 86400 →
      validDate (now.year + 1) bd.month bd.day = true →
      days_to_birthday now r =
        .ok (some ((rataDie (now.year + 1) bd.month bd.day : Int) -
          (rataDie now.year bd.month bd.day : Int) - 1))) := by
  have hvd' : validDate now.year bd.month bd.day = true := by rw [hm, hd]; exact hvd
  have hsecs : toSecs (⟨now.year, bd.month, bd.day, 0⟩ : PyDateTime) =
      (rataDie now.year now.month now.day : Int) * 86400 := by
    simp [toSecs, hm, hd]
  have hnow : toSecs now = (rataDie now.year now.month now.day : Int) * 86400 + now.sod := by
    simp [toSecs]
  constructor
  · intro hsod
    have hlt : dtLt ⟨now.year, bd.month, bd.day, 0⟩ now = false := by
      simp only [dtLt, hsecs, hnow, hsod, decide_eq_false_iff_not]
      omega
    simp only [days_to_birthday, hb, hbv, mk_datetime, hvd', if_true, hlt, Bool.false_eq_true,
      if_false, tdDays, hsecs, hnow, hsod]
    norm_num [Int.zero_fdiv]
  · intro h1 h2 hvd2
    have hlt : dtLt ⟨now.year, bd.month, bd.day, 0⟩ now = true := by
      simp only [dtLt, hsecs, hnow, decide_eq_true_eq]
      omega
    have hsecs2 : toSecs (⟨now.year + 1, bd.month, bd.day, 0⟩ : PyDateTime) =
        (rataDie (now.year + 1) bd.month bd.day : Int) * 86400 := by
      simp [toSecs]
    have hnowbd : toSecs now = (rataDie now.year bd.month bd.day : Int) * 86400 + now.sod := by
      rw [hm, hd]
      simp [toSecs]
    simp only [days_to_birthday, hb, hbv, mk_datetime, hvd', hvd2, if_true, hlt, tdDays,
      hsecs2, hnowbd]
    congr 1
    congr 1
    rw [Int.fdiv_eq_ediv _ (by norm_num)]
    omega

/-- Witness for C1 at midnight of the birthday: the result is 0. -/
theorem c1_witness :
    days_to_birthday ⟨2026, 8, 24, 0⟩
      ⟨⟨some "Bill"⟩, [], some ⟨some ⟨1991, 8, 24, 0⟩⟩⟩ = .ok (some 0) :=
  (c1_amended_birthday_today ⟨2026, 8, 24, 0⟩
    ⟨⟨some "Bill"⟩, [], some ⟨some ⟨1991, 8, 24, 0⟩⟩⟩
    ⟨some ⟨1991, 8, 24, 0⟩⟩ ⟨1991, 8, 24, 0⟩ rfl rfl rfl rfl (by decide)).1 rfl

/-! ## Edit phone -/

theorem edit_phone_aux_eq (ov : Option String) (np : Phone) :
    ∀ (fuel : Nat) (l : List Phone) (i : Nat), l.length - i ≤ fuel →
      edit_phone_aux ov np l i =
        l.take i ++ (l.drop i).map (fun q => if ov == q.value then np else q) := by
  intro fuel
  induction fuel with
  | zero =>
    intro l i hle
    have hge : l.length ≤ i := by omega
    rw [edit_phone_aux, dif_neg (by omega)]
    rw [List.take_of_length_le hge, List.drop_eq_nil_of_le hge]
    simp
  | succ fuel ih =>
    intro l i hle
    by_cases h : i < l.length
    · rw [edit_phone_aux, dif_pos h]
      have hdrop := @List.drop_eq_getElem_cons _ i l h
      have htake : l.take (i + 1) = l.take i ++ [l[i]] := by
        rw [List.take_succ]
        simp [List.getElem?_eq_getElem h]
      by_cases hv : ov == (l.get ⟨i, h⟩).value
      · rw [if_pos hv]
        have hset : l.set i np = l.take i ++ np :: l.drop (i + 1) := by
          rw [List.set_eq_take_append_cons_drop, if_pos h]
        have hlen : (l.set i np).length - (i + 1) ≤ fuel := by
          rw [List.length_set]; omega
        rw [ih (l.set i np) (i + 1) hlen, hset]
        have h1 : (l.take i ++ np :: l.drop (i + 1)).take (i + 1) = l.take i ++ [np] := by
          rw [List.take_append_eq_append_take]
          have : (l.take i).length = i := by simp [List.length_take]; omega
          rw [List.take_of_length_le (by omega), this]
          simp
        have h2 : (l.take i ++ np :: l.drop (i + 1)).drop (i + 1) = l.drop (i + 1) := by
          rw [List.drop_append_eq_append_drop]
          have : (l.take i).length = i := by simp [List.length_take]; omega
          rw [List.drop_eq_nil_of_le (by omega), this]
          simp
        rw [h1, h2, hdrop, List.map_cons,
          if_pos (show (ov == (l[i] : Phone).value) = true by simpa using hv),
          List.append_assoc]
        rfl
      · rw [if_neg hv]
        rw [ih l (i + 1) (by omega), hdrop, htake, List.map_cons,
          if_neg (show ¬(ov == (l[i] : Phone).value) = true by simpa using hv),
          List.append_assoc]
        rfl
    · rw [edit_phone_aux, dif_neg h]
      have hge : l.length ≤ i := by omega
      rw [List.take_of_length_le hge, List.drop_eq_nil_of_le hge]
      simp

/-- C4 is false on the code: `edit_phone` has no break, so with two stored
phones holding the old value both get replaced; the later one does not keep
its old object. -/
theorem c4_counterexample :
    (edit_phone ⟨9, some "111111111"⟩ ⟨3, some "222222222"⟩
        ⟨⟨some "Bill"⟩, [⟨1, some "111111111"⟩, ⟨2, some "111111111"⟩], none⟩).phones =
      [⟨3, some "222222222"⟩, ⟨3, some "222222222"⟩] ∧
    (⟨3, some "222222222"⟩ : Phone) ≠ ⟨2, some "111111111"⟩ := by
  refine ⟨?_, by decide⟩
  show edit_phone_aux (some "111111111") ⟨3, some "222222222"⟩
    [⟨1, some "111111111"⟩, ⟨2, some "111111111"⟩] 0 = _
  rw [edit_phone_aux_eq (some "111111111") ⟨3, some "222222222"⟩ 2
    [⟨1, some "111111111"⟩, ⟨2, some "111111111"⟩] 0 (by simp)]
  rfl

/-- C4 amended: `edit_phone` replaces every stored phone whose value equals
the old phone's value with the new phone object, preserving positions (in
particular, when no stored phone matches, the list is unchanged since the
map is the identity there). -/
theorem c4_amended_edit_replaces_all (op np : Phone) (r : Record) :
    (edit_phone op np r).phones =
      r.phones.map (fun q => if op.value == q.value then np else q) := by
  have := edit_phone_aux_eq op.value np r.phones.length r.phones 0 (by omega)
  simpa [edit_phone] using this

/-! ## Remove phone -/

theorem eraseFirstId_eq_eraseIdx :
    ∀ (l : List Phone) (i : Nat) (h : i < l.length),
      (l.map Phone.id).Nodup →
      eraseFirstId l (l.get ⟨i, h⟩).id = l.eraseIdx i := by
  intro l
  induction l with
  | nil => intro i h; simp at h
  | cons x xs ih =>
    intro i h hnd
    have hnd' : x.id ∉ xs.map Phone.id ∧ (xs.map Phone.id).Nodup := by
      rw [List.map_cons, List.nodup_cons] at hnd
      exact hnd
    cases i with
    | zero => simp [eraseFirstId]
    | succ j =>
      have hj : j < xs.length := by simpa using h
      have hget : (x :: xs).get ⟨j + 1, h⟩ = xs.get ⟨j, hj⟩ := rfl
      have hne : (x.id == ((x :: xs).get ⟨j + 1, h⟩).id) = false := by
        rw [hget]
        refine beq_eq_false_iff_ne.mpr ?_
        intro hcontra
        exact hnd'.1 (hcontra ▸ List.mem_map_of_mem Phone.id (xs.get_mem j hj))
      rw [hget] at hne ⊢
      simp only [eraseFirstId, hne, Bool.false_eq_true, if_false, List.eraseIdx_cons_succ,
        List.cons.injEq, true_and]
      exact ih j hj hnd'.2

theorem remove_phone_aux_eq (v : Option String) :
    ∀ (fuel : Nat) (l : List Phone) (i : Nat), l.length - i ≤ fuel →
      (l.map Phone.id).Nodup →
      List.Chain' (fun a b => (v == a.value) = true → (v == b.value) = false) (l.drop i) →
      remove_phone_aux v l i =
        l.take i ++ (l.drop i).filter (fun q => !(v == q.value)) := by
  intro fuel
  induction fuel with
  | zero =>
    intro l i hle _ _
    have hge : l.length ≤ i := by omega
    rw [remove_phone_aux, dif_neg (by omega)]
    rw [List.take_of_length_le hge, List.drop_eq_nil_of_le hge]
    simp
  | succ fuel ih =>
    intro l i hle hnd hch
    by_cases h : i < l.length
    · rw [remove_phone_aux, dif_pos h]
      have hdrop := @List.drop_eq_getElem_cons _ i l h
      have htl : (l.take i).length = i := by
        rw [List.length_take]; omega
      have hch1 : List.Chain' (fun a b => (v == a.value) = true → (v == b.value) = false)
          (l.drop (i + 1)) := by
        have := hch
        rw [hdrop] at this
        exact (List.chain'_cons'.mp this).2
      by_cases hv : (v == (l.get ⟨i, h⟩).value) = true
      · rw [if_pos hv, eraseFirstId_eq_eraseIdx l i h hnd, List.eraseIdx_eq_take_drop_succ]
        have hsub : (l.take i ++ l.drop (i + 1)).Sublist l := by
          rw [← List.eraseIdx_eq_take_drop_succ]
          exact List.eraseIdx_sublist l i
        have hnd2 : ((l.take i ++ l.drop (i + 1)).map Phone.id).Nodup :=
          List.Nodup.sublist (hsub.map Phone.id) hnd
        have hdrop2 : (l.take i ++ l.drop (i + 1)).drop (i + 1) = l.drop (i + 2) := by
          rw [List.drop_append_eq_append_drop, htl, List.drop_eq_nil_of_le (by omega)]
          rw [List.nil_append, List.drop_drop]
          congr 1
          omega
        have hch2 : List.Chain' (fun a b => (v == a.value) = true → (v == b.value) = false)
            ((l.take i ++ l.drop (i + 1)).drop (i + 1)) := by
          rw [hdrop2]
          have := hch1.tail
          rwa [List.tail_drop] at this
        have hlen2 : (l.take i ++ l.drop (i + 1)).length - (i + 1) ≤ fuel := by
          rw [List.length_append, htl, List.length_drop]
          omega
        rw [ih _ (i + 1) hlen2 hnd2 hch2, hdrop2]
        have htake2 : (l.take i ++ l.drop (i + 1)).take (i + 1) =
            l.take i ++ (l.drop (i + 1)).take 1 := by
          rw [List.take_append_eq_append_take, htl, List.take_of_length_le (by omega)]
          simp [Nat.add_sub_cancel_left]
        rw [htake2, hdrop]
        rw [List.filter_cons_of_neg (by simpa using hv)]
        cases hcase : l.drop (i + 1) with
        | nil =>
          have : l.drop (i + 2) = [] := by
            have := List.tail_drop l (i + 1)
            rw [hcase] at this
            simpa using this.symm
          rw [this]
          simp
        | cons y rest =>
          have hy : (v == y.value) = false := by
            rw [hdrop, hcase] at hch
            exact (List.chain'_cons.mp hch).1 hv
          have h2 : l.drop (i + 2) = rest := by
            have := List.tail_drop l (i + 1)
            rw [hcase] at this
            simpa using this.symm
          rw [h2, List.filter_cons_of_pos (by simp [hy])]
          simp
      · rw [if_neg hv, ih l (i + 1) (by omega) hnd hch1, hdrop]
        have htake : l.take (i + 1) = l.take i ++ [l[i]] := by
          rw [List.take_succ]
          simp [List.getElem?_eq_getElem h]
        rw [htake, List.filter_cons_of_pos (by simpa using hv), List.append_assoc]
        rfl
    · rw [remove_phone_aux, dif_neg h]
      have hge : l.length ≤ i := by omega
      rw [List.take_of_length_le hge, List.drop_eq_nil_of_le hge]
      simp

/-- C3 is false on the code: removing a value stored in two consecutive
phones removes only the first of them — the in-place removal shifts the
list so the iterator skips the duplicate — leaving a phone with the removed
value in the list. -/
theorem c3_counterexample :
    (remove_phone ⟨9, some "123456789"⟩
        ⟨⟨some "Bill"⟩, [⟨1, some "123456789"⟩, ⟨2, some "123456789"⟩], none⟩).phones =
      [⟨2, some "123456789"⟩] ∧
    ((⟨2, some "123456789"⟩ : Phone).value == (⟨9, some "123456789"⟩ : Phone).value) = true := by
  refine ⟨?_, by decide⟩
  show remove_phone_aux (some "123456789")
    [⟨1, some "123456789"⟩, ⟨2, some "123456789"⟩] 0 = _
  rw [remove_phone_aux, dif_pos (by simp)]
  rw [if_pos (by decide)]
  show remove_phone_aux (some "123456789") [⟨2, some "123456789"⟩] 1 = _
  rw [remove_phone_aux, dif_neg (by simp)]

/-- C3 amended: when the stored phones are distinct objects and no two
consecutive phones both hold the removed value, `remove_phone` removes
every phone whose value equals the argument's value and keeps all others
in order; with consecutive equal-valued duplicates the iterate-and-remove
loop skips the element after each removal, so such duplicates survive. -/
theorem c3_amended_remove_phone (p : Phone) (r : Record)
    (hids : (r.phones.map Phone.id).Nodup)
    (hadj : List.Chain' (fun a b => (p.value == a.value) = true → (p.value == b.value) = false)
      r.phones) :
    (remove_phone p r).phones = r.phones.filter (fun q => !(p.value == q.value)) := by
  have h := remove_phone_aux_eq p.value r.phones.length r.phones 0 (by omega) hids
    (by simpa using hadj)
  simpa [remove_phone] using h

/-- Witness for C3 on a record whose matching phones are not adjacent: both
occurrences of the value are removed and the other phone is kept. -/
theorem c3_witness :
    (remove_phone ⟨9, some "123456789"⟩
        ⟨⟨some "Bill"⟩,
          [⟨1, some "123456789"⟩, ⟨2, some "555555555"⟩, ⟨3, some "123456789"⟩], none⟩).phones =
      [⟨2, some "555555555"⟩] :=
  (c3_amended_remove_phone ⟨9, some "123456789"⟩
    ⟨⟨some "Bill"⟩,
      [⟨1, some "123456789"⟩, ⟨2, some "555555555"⟩, ⟨3, some "123456789"⟩], none⟩
    (by decide)
    (List.chain'_cons.mpr ⟨fun _ => by decide,
      List.chain'_cons.mpr ⟨fun hx => absurd hx (by decide),
        List.chain'_singleton _⟩⟩)).trans (by rfl)

/-! ## Pagination -/

theorem next_items_eq (ab : AddressBook) :
    ∀ (n : Nat) (keys : List (Option String)) (acc : List (Option String × Record)),
      (∀ k ∈ keys, (dict_lookup ab.data k).isSome) →
      next_items ab n keys acc =
        if acc = [] ∧ keys.take n = [] ∧ 0 < n then .error .stopIteration
        else .ok (acc ++ (keys.take n).map (fun k => (k, (dict_lookup ab.data k).get!)),
          keys.drop n) := by
  intro n
  induction n with
  | zero =>
    intro keys acc _
    simp [next_items]
  | succ n ih =>
    intro keys acc hk
    cases keys with
    | nil =>
      by_cases ha : acc = []
      · simp [next_items, ha]
      · simp [next_items, ha, List.isEmpty_iff]
    | cons k rest =>
      have hsome := hk k (by simp)
      obtain ⟨r, hr⟩ := Option.isSome_iff_exists.mp hsome
      have hstep : next_items ab (n + 1) (k :: rest) acc =
          next_items ab n rest (acc ++ [(k, r)]) := by
        simp [next_items, hr]
      rw [hstep, ih rest (acc ++ [(k, r)]) (fun k' h' => hk k' (by simp [h']))]
      rw [if_neg (by simp)]
      rw [List.take_succ_cons, if_neg (by simp)]
      simp [hr]

/-- C6: a page request on a non-empty cursor returns `min n remaining`
items and advances the cursor by `n`; a request that finds no records
remaining (in particular the very first request on an empty directory)
signals `StopIteration` rather than returning an empty page; on a 25-record
directory with page size 10 the pulls yield 10, 10 and 5 items and the
fourth pull signals exhaustion. -/
theorem c6_pagination (ab : AddressBook) (it : BookIter) (n : Nat)
    (hn : 0 < n)
    (hk : ∀ k ∈ it.keys, (dict_lookup ab.data k).isSome) :
    (next_items ab n it.keys [] = .error .stopIteration ↔ it.keys = []) ∧
    (it.keys = [] → book_next ab it n = .error .stopIteration) ∧
    (∀ items rest, next_items ab n it.keys [] = .ok (items, rest) →
      items.length = min n it.keys.length ∧ rest = it.keys.drop n) ∧
    (it.keys.length = 25 → n = 10 →
      ∃ i1 r1 i2 r2 i3 r3,
        next_items ab 10 it.keys [] = .ok (i1, r1) ∧ i1.length = 10 ∧
        next_items ab 10 r1 [] = .ok (i2, r2) ∧ i2.length = 10 ∧
        next_items ab 10 r2 [] = .ok (i3, r3) ∧ i3.length = 5 ∧
        next_items ab 10 r3 [] = .error .stopIteration) := by
  have E := next_items_eq ab n it.keys [] hk
  refine ⟨?_, ?_, ?_, ?_⟩
  · rw [E]
    by_cases hnil : it.keys = []
    · simp [hnil, hn]
    · have htk : it.keys.take n ≠ [] := by
        intro hcontra
        rcases List.take_eq_nil_iff.mp hcontra with h1 | h1
        · omega
        · exact hnil h1
      rw [if_neg (by simp [htk])]
      simp [hnil]
  · intro hnil
    have herr : next_items ab n it.keys [] = .error .stopIteration := by
      rw [E]
      simp [hnil, hn]
    simp only [book_next, herr]
    rfl
  · intro items rest hok
    rw [E] at hok
    split at hok
    · exact absurd hok (by simp)
    · have h1 : items = (it.keys.take n).map (fun k => (k, (dict_lookup ab.data k).get!)) := by
        have := congrArg (fun x : List (Option String × Record) × List (Option String) => x.1)
          (Except.ok.inj hok)
        simpa using this.symm
      have h2 : rest = it.keys.drop n := by
        have := congrArg (fun x : List (Option String × Record) × List (Option String) => x.2)
          (Except.ok.inj hok)
        simpa using this.symm
      subst h1 h2
      refine ⟨?_, rfl⟩
      simp [List.length_take]
  · intro h25 hn10
    subst hn10
    have hk1 : ∀ k ∈ it.keys.drop 10, (dict_lookup ab.data k).isSome :=
      fun k h' => hk k (List.mem_of_mem_drop h')
    have hk2 : ∀ k ∈ (it.keys.drop 10).drop 10, (dict_lookup ab.data k).isSome :=
      fun k h' => hk1 k (List.mem_of_mem_drop h')
    have hk3 : ∀ k ∈ ((it.keys.drop 10).drop 10).drop 10, (dict_lookup ab.data k).isSome :=
      fun k h' => hk2 k (List.mem_of_mem_drop h')
    have hne0 : it.keys ≠ [] := by
      intro hcontra
      rw [hcontra] at h25
      simp at h25
    have hlen1 : (it.keys.drop 10).length = 15 := by rw [List.length_drop, h25]
    have hlen2 : ((it.keys.drop 10).drop 10).length = 5 := by rw [List.length_drop, hlen1]
    have hne1 : it.keys.drop 10 ≠ [] := by
      intro hcontra
      rw [hcontra] at hlen1
      simp at hlen1
    have hne2 : (it.keys.drop 10).drop 10 ≠ [] := by
      intro hcontra
      rw [hcontra] at hlen2
      simp at hlen2
    have hlen3 : (((it.keys.drop 10).drop 10).drop 10) = [] :=
      List.drop_eq_nil_of_le (by omega)
    have htk0 : it.keys.take 10 ≠ [] := by
      intro hcontra
      rcases List.take_eq_nil_iff.mp hcontra with h1 | h1
      · omega
      · exact hne0 h1
    have htk1 : (it.keys.drop 10).take 10 ≠ [] := by
      intro hcontra
      rcases List.take_eq_nil_iff.mp hcontra with h1 | h1
      · omega
      · exact hne1 h1
    have htk2 : ((it.keys.drop 10).drop 10).take 10 ≠ [] := by
      intro hcontra
      rcases List.take_eq_nil_iff.mp hcontra with h1 | h1
      · omega
      · exact hne2 h1
    refine ⟨(it.keys.take 10).map (fun k => (k, (dict_lookup ab.data k).get!)), it.keys.drop 10,
      ((it.keys.drop 10).take 10).map (fun k => (k, (dict_lookup ab.data k).get!)),
      (it.keys.drop 10).drop 10,
      (((it.keys.drop 10).drop 10).take 10).map (fun k => (k, (dict_lookup ab.data k).get!)),
      ((it.keys.drop 10).drop 10).drop 10, ?_, ?_, ?_, ?_, ?_, ?_, ?_⟩
    · rw [next_items_eq ab 10 it.keys [] hk, if_neg (by simp [htk0])]
      simp
    · simp [List.length_take]
      omega
    · rw [next_items_eq ab 10 (it.keys.drop 10) [] hk1, if_neg (by simp [htk1])]
      simp
    · simp [List.length_take]
      omega
    · rw [next_items_eq ab 10 ((it.keys.drop 10).drop 10) [] hk2, if_neg (by simp [htk2]; omega)]
      simp
    · simp [List.length_take]
      omega
    · rw [next_items_eq ab 10 (((it.keys.drop 10).drop 10).drop 10) [] hk3, hlen3]
      simp

/-- Witness for C6 on a concrete 25-record directory built with
`add_record`: three pages of 10, 10 and 5 items, then exhaustion. -/
theorem c6_witness :
    ∃ i1 r1 i2 r2 i3 r3,
      next_items ab25 10 (book_iter ab25).keys [] = .ok (i1, r1) ∧ i1.length = 10 ∧
      next_items ab25 10 r1 [] = .ok (i2, r2) ∧ i2.length = 10 ∧
      next_items ab25 10 r2 [] = .ok (i3, r3) ∧ i3.length = 5 ∧
      next_items ab25 10 r3 [] = .error .stopIteration :=
  (c6_pagination ab25 (book_iter ab25) 10 (by decide) (by decide)).2.2.2 (by decide) rfl

/-! ## Search -/

theorem foldl_last_hit {α β : Type} (p : α → Bool) (f : α → β) (init : β) (l : List α) :
    l.foldl (fun res e => if p e then f e else res) init =
      (match (l.filter p).getLast? with
        | some e => f e
        | none => init) := by
  induction l using List.reverseRecOn with
  | nil => rfl
  | append_singleton l x ih =>
    rw [List.foldl_append, List.filter_append]
    by_cases hx : p x
    · simp [hx, List.getLast?_concat]
    · simp [hx, ih]

theorem filter_key_eq_of_nodup (v : Option String) :
    ∀ d : List (Option String × Record), (d.map Prod.fst).Nodup →
      d.filter (fun kr => v == kr.1) =
        (match dict_lookup d v with
          | some r => [(v, r)]
          | none => []) := by
  intro d
  induction d with
  | nil => intro _; rfl
  | cons kv rest ih =>
    intro hnd
    obtain ⟨k, r⟩ := kv
    have hnd2 : k ∉ rest.map Prod.fst ∧ (rest.map Prod.fst).Nodup := by
      rw [List.map_cons, List.nodup_cons] at hnd
      exact hnd
    by_cases hk : (k == v) = true
    · have hkv : k = v := eq_of_beq hk
      subst hkv
      have hfr : rest.filter (fun kr => k == kr.1) = [] := by
        rw [List.filter_eq_nil_iff]
        intro a ha hpa
        exact hnd2.1 (by rw [eq_of_beq hpa]; exact List.mem_map_of_mem Prod.fst ha)
      rw [List.filter_cons_of_pos (by simp)]
      simp only [dict_lookup, beq_self_eq_true, if_true]
      rw [hfr]
    · have hkv : k ≠ v := fun h => hk (beq_iff_eq.mpr h)
      have hvk : (v == k) = false := beq_eq_false_iff_ne.mpr (Ne.symm hkv)
      have hk' : (k == v) = false := beq_eq_false_iff_ne.mpr hkv
      rw [List.filter_cons_of_neg (by simp [hvk])]
      simp only [dict_lookup, hk', Bool.false_eq_true, if_false]
      exact ih hnd2.2

/-- C7: with unique keys (the dict invariant), a Name query returns the
phone-value list of the record stored under exactly the queried name value
(absent if no key matches); a Phone query returns the key of the last
record in iteration order holding an equal-valued phone (absent if none);
any other query returns absent. -/
theorem c7_search (ab : AddressBook) (v : Option String)
    (hkeys : (ab.data.map Prod.fst).Nodup) :
    (search ab (.nameQ v) =
      (match dict_lookup ab.data v with
        | some r => .phones (r.phones.map Phone.value)
        | none => .nothing)) ∧
    (search ab (.phoneQ v) =
      (match (ab.data.filter (fun kr => kr.2.phones.any (fun q => v == q.value))).getLast? with
        | some kr => .foundName kr.1
        | none => .nothing)) ∧
    search ab .otherQ = .nothing := by
  refine ⟨?_, ?_, rfl⟩
  · have h := foldl_last_hit (fun kr : Option String × Record => v == kr.1)
      (fun kr : Option String × Record => SearchResult.phones (kr.2.phones.map Phone.value))
      SearchResult.nothing ab.data
    rw [filter_key_eq_of_nodup v ab.data hkeys] at h
    refine h.trans ?_
    cases hdl : dict_lookup ab.data v with
    | some r => rfl
    | none => rfl
  · have h := foldl_last_hit (fun kr : Option String × Record =>
        kr.2.phones.any (fun q => v == q.value))
      (fun kr : Option String × Record => SearchResult.foundName kr.1)
      SearchResult.nothing ab.data
    refine h.trans ?_
    cases hgl : (ab.data.filter (fun kr => kr.2.phones.any (fun q => v == q.value))).getLast? with
    | some kr => rfl
    | none => rfl

/-- Witness for C7 on a concrete directory where two records share the
queried phone value: the later record's name wins. -/
theorem c7_witness :
    (search ab2 (.nameQ (some "123456789")) =
      (match dict_lookup ab2.data (some "123456789") with
        | some r => .phones (r.phones.map Phone.value)
        | none => .nothing)) ∧
    (search ab2 (.phoneQ (some "123456789")) =
      (match (ab2.data.filter
          (fun kr => kr.2.phones.any (fun q => some "123456789" == q.value))).getLast? with
        | some kr => .foundName kr.1
        | none => .nothing)) ∧
    search ab2 .otherQ = .nothing :=
  c7_search ab2 (some "123456789") (by decide)

end CliAssistant
